import Mathlib

/-
Verification of the wikimaping photo-conversion tool (src/wikimaping.py).

The development shallowly embeds the pure logic of the program:
  * POSIX path helpers used by the program (os.path.split, os.path.splitext,
    os.path.join, os.path.normpath), modelled for the POSIX separator.
  * get_backup_path, the collision-avoiding backup path allocator.
    The filesystem is modelled as a pure predicate (String to Bool) standing
    for path_exists at call time.
  * The label template parser (WmLabelTemplate.__get_spans and
    __get_bracket_spans), including the double-bracket escape handling.
  * The label composer (WmLabel.__compose) with its all-or-nothing groups.
  * The font fitter (WmLabel.__calc_font_size).  Python computes
    int(LABEL_FONT_SIZE * (float(max_side) / LABEL_FONT_SIZE_PHOTO_SIDE));
    for every max_side in [0, 1920] this equals exact natural floor division
    (40 * max_side) / 1920, which is how it is embedded.
  * WmLabel.text, the label-text query (None / string decision logic).
  * The scanning phase of WmFiles.convert and the guards of main.
  * The statistics counters of WmFiles (files_found / files_converted).
  * WmImageMetrics.move.
External effects (ImageMagick invocations, EXIF reads, actual file moves)
are modelled as oracle inputs: booleans for process exit status and move
success, and string-valued records for per-image metadata results.
-/

namespace Wikimaping

/-! ## POSIX path helpers (os.path.split / splitext / join / normpath) -/

/-- str.startswith, computed structurally on the character lists. -/
def strStartsWith (s pre : String) : Bool :=
  pre.toList.isPrefixOf s.toList

/-- str.endswith, computed structurally on the character lists. -/
def strEndsWith (s suf : String) : Bool :=
  suf.toList.reverse.isPrefixOf s.toList.reverse

/-- Worker for Python str.split on the slash separator. -/
def splitSlashAux : List Char → List Char → List String
  | [], cur => [String.mk cur.reverse]
  | c :: rest, cur =>
    if c = '/' then String.mk cur.reverse :: splitSlashAux rest []
    else splitSlashAux rest (c :: cur)

/-- Python str.split on a single slash: empty pieces are kept. -/
def splitSlash (s : String) : List String :=
  splitSlashAux s.toList []

/-- Python slash-join of a list of components. -/
def joinSlash : List String → String
  | [] => ""
  | [s] => s
  | s :: rest => s ++ "/" ++ joinSlash rest

/-- Index of the last occurrence of a character, as in Python str.rfind:
-1 when absent. -/
def rfindChar (cs : List Char) (c : Char) : Int :=
  (cs.foldl
    (fun (st : Int × Int) ch => (if ch = c then st.2 else st.1, st.2 + 1))
    (-1, 0)).1

/-- os.path.split for the POSIX separator: (head, tail) where tail is
everything after the last slash and head is stripped of trailing slashes
unless it consists only of slashes. -/
def psplit (p : String) : String × String :=
  let cs := p.toList
  let tailLen := (cs.reverse.takeWhile (fun c => c ≠ '/')).length
  let head := cs.take (cs.length - tailLen)
  let tail := cs.drop (cs.length - tailLen)
  let head :=
    if head ≠ [] ∧ head.any (fun c => c ≠ '/') then
      (head.reverse.dropWhile (fun c => c = '/')).reverse
    else head
  (String.mk head, String.mk tail)

/-- os.path.splitext for the POSIX separator: split at the last dot of the
final component, unless the final component consists only of leading dots
up to that position (CPython genericpath._splitext). -/
def psplitext (p : String) : String × String :=
  let cs := p.toList
  let sepIdx := rfindChar cs '/'
  let dotIdx := rfindChar cs '.'
  if sepIdx < dotIdx ∧
     ((cs.drop (sepIdx + 1).toNat).take (dotIdx - sepIdx - 1).toNat).any
       (fun c => c ≠ '.') then
    (String.mk (cs.take dotIdx.toNat), String.mk (cs.drop dotIdx.toNat))
  else
    (p, "")

/-- os.path.join for two POSIX components (the only arity the program
uses). -/
def pjoin (a b : String) : String :=
  if strStartsWith b "/" then b
  else if a = "" ∨ strEndsWith a "/" then a ++ b
  else a ++ "/" ++ b

/-- One step of the component loop of posixpath.normpath. -/
def normpathComp (initialSlashes : Nat) (acc : List String) (comp : String) :
    List String :=
  if comp = "" ∨ comp = "." then acc
  else if comp ≠ ".." ∨ (initialSlashes = 0 ∧ acc = []) ∨
          acc.getLast? = some ".." then acc ++ [comp]
  else if acc ≠ [] then acc.dropLast
  else acc

/-- posixpath.normpath. -/
def normpath (p : String) : String :=
  if p = "" then "."
  else
    let initialSlashes : Nat :=
      if strStartsWith p "/" then
        if strStartsWith p "//" ∧ ¬ strStartsWith p "///" then 2 else 1
      else 0
    let comps := splitSlash p
    let newComps := comps.foldl (normpathComp initialSlashes) []
    let joined := joinSlash newComps
    let res := String.mk (List.replicate initialSlashes '/') ++ joined
    if res = "" then "." else res

/-! ## get_backup_path (backup allocator)

The filesystem is a pure predicate fs standing for path_exists at call
time.  get_backup_path(path, backup_dir) builds an initial candidate and,
while the candidate exists, tries zero-padded suffixes _001 .. _998
(Python: for i in range(1, 999)); after the loop it returns the last
candidate even when it exists. -/

/-- Zero-padded three-digit suffix body: the digits of the Python
percent-03d formatting of i without the leading underscore, for
i < 1000. -/
def pad3 (i : Nat) : String :=
  if i < 10 then "00" ++ toString i
  else if i < 100 then "0" ++ toString i
  else toString i

/-- The suffix loop of get_backup_path.  fuel is the number of remaining
loop iterations including the current one; when it reaches 1 the loop body
runs once more and the function returns its candidate whether or not it
exists (this is exactly what the Python loop plus the trailing return res
do). -/
def backupLoop (fs : String → Bool) (rname ext : String) :
    Nat → Nat → String
  | i, 0 => rname ++ "_" ++ pad3 i ++ ext
  | i, fuel + 1 =>
    let res := rname ++ "_" ++ pad3 i ++ ext
    if fuel = 0 then res
    else if fs res = false then res
    else backupLoop fs rname ext (i + 1) fuel

/-- The initial candidate of get_backup_path: backup_dir/basename when a
backup directory is given, else the source path with _backup inserted
before the extension. -/
def backupCand0 (path backup_dir : String) : String :=
  if backup_dir ≠ "" then pjoin backup_dir (psplit path).2
  else (psplitext path).1 ++ "_backup" ++ (psplitext path).2

/-- The (stem, extension) pair the suffix loop splices the counter into.
In the backup_dir branch it is recovered by splitext of the first
candidate on the first loop iteration (the Python try/except NameError);
otherwise it is the source stem with "_backup" appended and the source
extension. -/
def backupStemExt (path backup_dir : String) : String × String :=
  if backup_dir ≠ "" then psplitext (backupCand0 path backup_dir)
  else ((psplitext path).1 ++ "_backup", (psplitext path).2)

/-- get_backup_path. -/
def get_backup_path (fs : String → Bool) (path backup_dir : String) :
    String :=
  if fs (backupCand0 path backup_dir) = false then
    backupCand0 path backup_dir
  else
    backupLoop fs (backupStemExt path backup_dir).1
      (backupStemExt path backup_dir).2 1 998

/-- The full ordered candidate list inspected by get_backup_path: the
initial candidate followed by the 998 suffixed names. -/
def backupCandidates (path backup_dir : String) : List String :=
  backupCand0 path backup_dir ::
    (List.range' 1 998).map
      (fun i => (backupStemExt path backup_dir).1 ++ "_" ++ pad3 i ++
        (backupStemExt path backup_dir).2)

/-! ## Font fitting (WmLabel.__calc_font_size) -/

def PHOTO_MAX_SIDE : Nat := 1920

def LABEL_FONT_SIZE : Nat := 40

def LABEL_FONT_SIZE_PHOTO_SIDE : Nat := 1920

def LABEL_LINE_WIDTH : Nat := 60

def LABEL_MAX_SIZE : Nat := 4096

/-- Result of WmLabel.__calc_font_size. -/
structure FontFit where
  font_size : Nat
  exact_font_size : Nat
  stroke_width : Nat
  deriving DecidableEq, Repr

/-- effectiveMaxSide: min(max(width, height), PHOTO_MAX_SIDE). -/
def effective_max_side (width height : Nat) : Nat :=
  min (max width height) PHOTO_MAX_SIDE

/-- WmLabel.__calc_font_size.  The Python float expression
int(LABEL_FONT_SIZE * (float(max_side) / LABEL_FONT_SIZE_PHOTO_SIDE))
coincides with natural floor division for every max_side at most 1920,
so it is embedded as (40 * max_side) / 1920. -/
def calc_font_size (width height : Nat) : FontFit :=
  let max_side := effective_max_side width height
  if max_side = LABEL_FONT_SIZE_PHOTO_SIDE then
    ⟨LABEL_FONT_SIZE, LABEL_FONT_SIZE, 2⟩
  else
    let f := LABEL_FONT_SIZE * max_side / LABEL_FONT_SIZE_PHOTO_SIDE
    let font := if f < 16 then 16 else f
    ⟨font, f, if font < 26 then 1 else 2⟩

/-- Modelled from the spec: the fitter as section 4.3 words it, with
exactFontSize = round(baseFontSize * effectiveMaxSide /
baseFontSizePhotoSide) (round to nearest; ties do not occur at the inputs
where this definition is used to separate spec from code). -/
def calc_font_size_spec (width height : Nat) : FontFit :=
  let max_side := effective_max_side width height
  if max_side = LABEL_FONT_SIZE_PHOTO_SIDE then
    ⟨LABEL_FONT_SIZE, LABEL_FONT_SIZE, 2⟩
  else
    let f := (2 * LABEL_FONT_SIZE * max_side + LABEL_FONT_SIZE_PHOTO_SIDE) /
             (2 * LABEL_FONT_SIZE_PHOTO_SIDE)
    let font := max f 16
    ⟨font, f, if font < 26 then 1 else 2⟩

/-! ## Label template parser (WmLabelTemplate) -/

/-- A parsed span is plain text (WmLabelSpanText) or a tag
(WmLabelSpanTag). -/
inductive WmSpanKind where
  | text (s : String)
  | tag (name : String)
  deriving DecidableEq, Repr

/-- Part of the label template, with the bracket-group boundary flags. -/
structure WmLabelSpan where
  kind : WmSpanKind
  group_start : Bool
  group_end : Bool
  deriving DecidableEq, Repr

/-- The keys of LABEL_TAGS in source (dict insertion) order.  No key is a
prefix of another, so the first-match scan is order-independent. -/
def LABEL_TAG_KEYS : List String :=
  ["YYYY", "MM", "month", "MONTH", "Month", "DD", "hh", "mm", "ss",
   "file_name"]

/-- First key of the given list that is a prefix of s, with the rest of s
after the match (the for-loop over LABEL_TAGS.keys in
__get_bracket_spans). -/
def findTagIn : List String → List Char → Option (String × List Char)
  | [], _ => none
  | t :: ts, s =>
    if t.toList.isPrefixOf s then some (t, s.drop t.toList.length)
    else findTagIn ts s

def findTag (s : List Char) : Option (String × List Char) :=
  findTagIn LABEL_TAG_KEYS s

/-- A nonempty pending text accumulator becomes one text span. -/
def flushList (text_span : String) : List WmLabelSpan :=
  if text_span = "" then [] else [⟨WmSpanKind.text text_span, false, false⟩]

/-- WmLabelTemplate.__get_bracket_spans: split bracket content into tag
spans and plain-text spans, applying the double-bracket escapes.  The
loop consumes at least one character per iteration, so running it with
fuel equal to the content length is exact; fuel only makes the structural
recursion explicit. -/
def getBracketSpansAux : Nat → List Char → String → List WmLabelSpan
  | 0, _, text_span => flushList text_span
  | fuel + 1, s, text_span =>
    match findTag s with
    | some (tag, rest) =>
      flushList text_span ++ (⟨WmSpanKind.tag tag, false, false⟩ ::
        getBracketSpansAux fuel rest "")
    | none =>
      match s with
      | [] => flushList text_span
      | c :: rest =>
        if (c = '[' ∧ rest.head? = some '[') ∨
           (c = ']' ∧ rest.head? = some ']') then
          getBracketSpansAux fuel rest.tail (text_span.push c)
        else
          getBracketSpansAux fuel rest (text_span.push c)

/-- Mark the last span of a freshly parsed bracket run as group_end. -/
def markLast : List WmLabelSpan → List WmLabelSpan
  | [] => []
  | [a] => [{ a with group_end := true }]
  | a :: b :: rest => a :: markLast (b :: rest)

/-- Mark a freshly parsed bracket run: first span group_start, last span
group_end (both on the same span when the run is a singleton); an empty
run is left unmarked. -/
def markGroup : List WmLabelSpan → List WmLabelSpan
  | [] => []
  | a :: rest => markLast ({ a with group_start := true } :: rest)

/-- Spans of one bracket region, group-marked. -/
def wmGetBracketSpans (content : String) : List WmLabelSpan :=
  markGroup (getBracketSpansAux content.toList.length content.toList "")

/-- Scanner state of WmLabelTemplate.__get_spans.  content mirrors the
slice template[tags_start:i] of the currently open bracket region. -/
structure ScanSt where
  brackets : Nat
  text_span : String
  content : String
  spans : List WmLabelSpan
  deriving Repr

/-- One non-escape character step of the __get_spans loop. -/
def scanStep (c : Char) (st : ScanSt) : ScanSt :=
  if c = '[' then
    if st.brackets = 0 then { st with brackets := 1, content := "" }
    else { st with brackets := st.brackets + 1,
                   content := st.content.push '[' }
  else if c = ']' ∧ st.brackets > 0 then
    if st.brackets = 1 then
      { st with
          brackets := 0,
          text_span := "",
          content := "",
          spans := st.spans ++ flushList st.text_span ++
                   wmGetBracketSpans st.content }
    else { st with brackets := st.brackets - 1,
                   content := st.content.push ']' }
  else if st.brackets = 0 then
    { st with text_span := st.text_span.push c }
  else
    { st with content := st.content.push c }

/-- The __get_spans loop: at bracket depth 0 a double bracket is consumed
as an escape (one literal character, next index skipped); every other
character takes one scanStep.  At the end an unterminated bracket region
is recovered as literal text template[tags_start - 1:]. -/
def getSpansAux : List Char → ScanSt → List WmLabelSpan
  | [], st =>
    let ts := if st.brackets > 0 then st.text_span ++ "[" ++ st.content
              else st.text_span
    st.spans ++ flushList ts
  | c :: c2 :: rest, st =>
    if st.brackets = 0 ∧ ((c = '[' ∧ c2 = '[') ∨ (c = ']' ∧ c2 = ']')) then
      getSpansAux rest { st with text_span := st.text_span.push c }
    else
      getSpansAux (c2 :: rest) (scanStep c st)
  | [c], st => getSpansAux [] (scanStep c st)

/-- WmLabelTemplate.__get_spans on a template string. -/
def wmGetSpans (template : String) : List WmLabelSpan :=
  getSpansAux template.toList ⟨0, "", "", []⟩

/-- The template static flag.  The parser starts it at True and clears it
for every tag span whose tag is not in LABEL_TAGS_STATIC; since
LABEL_TAGS_STATIC is empty, the flag is exactly the absence of tag
spans. -/
def templateStatic (spans : List WmLabelSpan) : Bool :=
  spans.all fun sp =>
    match sp.kind with
    | WmSpanKind.text _ => true
    | WmSpanKind.tag _ => false

/-- The evolution of the tracked bracket depth of __get_spans: entry i is
the value of the brackets counter when the scan reaches character index i
(a character skipped as the second half of a depth-0 escape keeps the
depth of its pair), with one final entry for the end of the scan. -/
def nextDepth (c : Char) (b : Nat) : Nat :=
  if c = '[' then b + 1 else if c = ']' ∧ b > 0 then b - 1 else b

def scanDepths : List Char → Nat → List Nat
  | [], b => [b]
  | c :: c2 :: rest, b =>
    if b = 0 ∧ ((c = '[' ∧ c2 = '[') ∨ (c = ']' ∧ c2 = ']')) then
      b :: b :: scanDepths rest b
    else b :: scanDepths (c2 :: rest) (nextDepth c b)
  | [c], b => b :: scanDepths [] (nextDepth c b)

/-! ## Image metadata values and the label composer (WmLabel.__compose) -/

/-- The string results of the WmImageMetrics accessor methods named by
LABEL_TAGS.  The methods run external EXIF queries and are memoized; a
failed fetch yields "" permanently, so for one conversion each accessor is
a fixed string and an image is modelled as this record of results. -/
structure WmImage where
  year : String
  month : String
  month_name : String
  month_NAME : String
  month_Name : String
  day : String
  hour : String
  minute : String
  sec : String
  file_name : String
  deriving Repr

/-- LABEL_TAGS: tag key to WmImageMetrics accessor. -/
def labelTagValue (tag : String) (img : WmImage) : String :=
  if tag = "YYYY" then img.year
  else if tag = "MM" then img.month
  else if tag = "month" then img.month_name
  else if tag = "MONTH" then img.month_NAME
  else if tag = "Month" then img.month_Name
  else if tag = "DD" then img.day
  else if tag = "hh" then img.hour
  else if tag = "mm" then img.minute
  else if tag = "ss" then img.sec
  else if tag = "file_name" then img.file_name
  else ""

/-- WmLabelSpan.value: a text span yields its literal, a tag span the
accessor result for the current image. -/
def spanValue (img : WmImage) (sp : WmLabelSpan) : String :=
  match sp.kind with
  | WmSpanKind.text s => s
  | WmSpanKind.tag name => labelTagValue name img

/-- The loop state of WmLabel.__compose. -/
structure ComposeState where
  label_text : String
  group : Bool
  group_empty : Bool
  group_text : String
  deriving Repr

/-- One span step of WmLabel.__compose. -/
def composeStep (img : WmImage) (st : ComposeState) (sp : WmLabelSpan) :
    ComposeState :=
  let st :=
    if sp.group_start then { st with group := true, group_empty := false }
    else st
  let st :=
    if st.group then
      if st.group_empty = false then
        let value := spanValue img sp
        if value = "" then { st with group_empty := true, group_text := "" }
        else { st with group_text := st.group_text ++ value }
      else st
    else { st with label_text := st.label_text ++ spanValue img sp }
  if sp.group_end then
    { st with label_text := st.label_text ++ st.group_text,
              group := false, group_text := "" }
  else st

/-- WmLabel.__compose over a parsed span sequence. -/
def wmCompose (spans : List WmLabelSpan) (img : WmImage) : String :=
  (spans.foldl (composeStep img) ⟨"", false, false, ""⟩).label_text

/-- The concatenation of the resolved values of a span run. -/
def joinValues (img : WmImage) : List WmLabelSpan → String
  | [] => ""
  | sp :: rest => spanValue img sp ++ joinValues img rest

/-! ## WmLabel.text (the label-text query) -/

/-- The non-cached tail of WmLabel.text: compose, drop empty results,
drop results longer than LABEL_MAX_SIZE * 2.  The delivered value
(inline string versus temporary utf-8 file) is I/O and is represented by
the composed text itself. -/
def wmComposePath (spans : List WmLabelSpan) (img : WmImage) :
    Option String :=
  let label_text := wmCompose spans img
  if label_text = "" then none
  else if LABEL_MAX_SIZE * 2 < label_text.length then none
  else some label_text

/-- WmLabel.text.  An empty template string means WmLabel.__init__ stored
no template (self.__template is None).  cached is the text of self.__text
from an earlier call, if any; the static branch returns it after
re-splitting lines (line splitting does not change the decision or the
text). -/
def wmLabelTextFn (templateStr : String) (cached : Option String)
    (img : WmImage) : Option String :=
  if templateStr = "" then none
  else
    let spans := wmGetSpans templateStr
    match cached with
    | some t =>
      if templateStatic spans then some t
      else wmComposePath spans img
    | none => wmComposePath spans img

/-- The cache states self.__text can actually reach: initially absent,
and afterwards always the composed text of some earlier image, which the
setting call has checked to be nonempty and within the size ceiling. -/
def ReachableCache (templateStr : String) (c : Option String) : Prop :=
  c = none ∨
    ∃ (img0 : WmImage) (t : String),
      c = some t ∧ t = wmCompose (wmGetSpans templateStr) img0 ∧
      t ≠ "" ∧ t.length ≤ LABEL_MAX_SIZE * 2

/-! ## Scanning phase of WmFiles.convert and the guards of main -/

/-- The filesystem facts the scanning phase queries: path_exists and
path_is_dir. -/
structure ScanFS where
  pexists : String → Bool
  pisdir : String → Bool

/-- One input path of the scanning loop of WmFiles.convert: normalize,
drop missing sources, drop sources whose directory is the destination
root (or an empty directory while the destination root is "."), then
partition into (files, dirs). -/
def scanPathStep (fs : ScanFS) (target_root : String)
    (acc : List String × List String) (path : String) :
    List String × List String :=
  let src := normpath path
  if fs.pexists src = false then acc
  else if target_root ≠ "" ∧
          ((psplit src).1 = target_root ∨
           ((psplit src).1 = "" ∧ target_root = ".")) then acc
  else if fs.pisdir src then (acc.1, acc.2 ++ [src])
  else (acc.1 ++ [src], acc.2)

/-- The scanning phase of WmFiles.convert (the loop over self.paths);
both result lists are sorted afterwards by the caller, which does not
change membership. -/
def scanPaths (fs : ScanFS) (target_root : String) (paths : List String) :
    List String × List String :=
  paths.foldl (scanPathStep fs target_root) ([], [])

/-- WmFiles.set_target: the stored destination root. -/
def set_target_root (target : String) : String :=
  if target ≠ "" then normpath target else ""

/-- WmFiles.set_target: False exactly when the destination exists and is
not a directory. -/
def set_target_ok (fs : ScanFS) (target : String) : Bool :=
  !(fs.pexists (set_target_root target) &&
    !(fs.pisdir (set_target_root target)))

/-- The parsed command-line arguments main consumes. -/
structure WmArgs where
  target : String
  nobackup : Bool
  label : String
  label_alignment : String
  path : List String

/-- How a run of main ends before or at the conversion stage: usage text
(no paths), bad destination, label template over LABEL_MAX_SIZE (abort
before any file is processed), or a conversion run over the scanned
(files, dirs). -/
inductive MainOutcome where
  | usage
  | badDestination
  | labelTooLong
  | run (files : List String) (dirs : List String)
  deriving DecidableEq, Repr

/-- The control flow of main after argument parsing, up to the scanning
phase of WmFiles.convert. -/
def mainFlow (fs : ScanFS) (args : WmArgs) : MainOutcome :=
  if args.path = [] then MainOutcome.usage
  else if set_target_ok fs args.target = false then
    MainOutcome.badDestination
  else if LABEL_MAX_SIZE < args.label.length then MainOutcome.labelTooLong
  else
    let res := scanPaths fs (set_target_root args.target) args.path
    MainOutcome.run res.1 res.2

/-! ## Conversion counters (files_found / files_converted) -/

/-- The statistics counters of WmFiles. -/
structure WmCounters where
  files_found : Nat
  files_converted : Nat
  deriving DecidableEq, Repr

/-- Files with these extensions are converted. -/
def FILE_EXTENSIONS : List String := ["jpg", "jpeg"]

/-- WmFiles.__good_type without its counter side effect: the extension
(splitext result with the dot dropped), lowercased, is in
FILE_EXTENSIONS. -/
def good_type (file : String) : Bool :=
  FILE_EXTENSIONS.contains
    (String.mk (((psplitext file).2.toList.drop 1).map Char.toLower))

/-- The externally determined outcomes of one WmFiles.__convert_file
call: whether the backup move succeeds and whether the ImageMagick
convert command exits with status 0. -/
structure ConvertEnv where
  move_ok : Bool
  exit_ok : Bool

/-- The effect of WmFiles.__convert_file on the counters: nothing when
target equals backup; nothing when a required backup move fails (early
return); files_converted incremented exactly when the convert command
succeeds. -/
def convert_file_count (c : WmCounters) (source target backup : String)
    (env : ConvertEnv) : WmCounters :=
  if target = backup then c
  else if backup ≠ "" ∧ source ≠ backup ∧ env.move_ok = false then c
  else if env.exit_ok then
    { c with files_converted := c.files_converted + 1 }
  else c

/-- One candidate file reaching a __good_type check in any of the four
processing loops: the name given to __good_type, the paths a subsequent
__convert_file call would receive, and whether that call happens at all
(it does not when creating the needed destination directory failed). -/
structure FileEvent where
  name : String
  source : String
  target : String
  backup : String
  attempted : Bool
  env : ConvertEnv

/-- Counter effect of processing one candidate file: __good_type
increments files_found exactly for supported extensions, and only then
may a conversion run. -/
def process_file_count (c : WmCounters) (e : FileEvent) : WmCounters :=
  if good_type e.name then
    let c := { c with files_found := c.files_found + 1 }
    if e.attempted then convert_file_count c e.source e.target e.backup e.env
    else c
  else c

/-! ## WmImageMetrics.move -/

/-- The mutable state of a WmImageMetrics instance: the path and every
memoized metadata field. -/
structure WmImageMetricsState where
  path : String
  orientation : String
  width : Int
  height : Int
  year : String
  month : String
  month_name : String
  month_name_error : Bool
  day : String
  hour : String
  minute : String
  sec : String
  date_loaded : Bool
  date_error : Bool
  file_name : String
  file_name_error : Bool
  deriving DecidableEq, Repr

/-- WmImageMetrics.move: move_file is an external effect whose success is
the oracle move_ok; on success the path is updated and True returned, on
failure the state is untouched and False returned. -/
def wm_move (m : WmImageMetricsState) (new_path : String)
    (move_ok : Bool) : Bool × WmImageMetricsState :=
  if move_ok = false then (false, m)
  else (true, { m with path := new_path })

/-! ## Statement-level predicates for the claims -/

/-- Spans carrying no group boundary flags. -/
def noGroupFlags (l : List WmLabelSpan) : Prop :=
  ∀ x ∈ l, x.group_start = false ∧ x.group_end = false

/-- The shape of a bracket-group run as the parser marks it: a single
span carrying both flags, or a group_start span, flagless middle spans,
and a group_end span. -/
inductive IsGroupRun : List WmLabelSpan → Prop where
  | single (k : WmSpanKind) : IsGroupRun [⟨k, true, true⟩]
  | multi (k k2 : WmSpanKind) (mid : List WmLabelSpan) :
      noGroupFlags mid →
      IsGroupRun (⟨k, true, false⟩ :: (mid ++ [⟨k2, false, true⟩]))

/-- Claim C2 as stated: an adjacent double bracket occurring anywhere in
a template never changes the tracked bracket depth of the parser scan. -/
def escapePairDepthInvariant : Prop :=
  ∀ (t : String) (i : Nat) (c : Char),
    (c = '[' ∨ c = ']') →
    t.toList[i]? = some c → t.toList[i + 1]? = some c →
    (scanDepths t.toList 0)[i + 2]? = (scanDepths t.toList 0)[i]?

/-- Claim C6 as stated: a source path equal to the destination root is
excluded from both scanned lists. -/
def scanRejectsRootProp : Prop :=
  ∀ (fs : ScanFS) (target_root : String) (paths : List String)
    (p : String),
    target_root ≠ "" → p ∈ paths → normpath p = target_root →
    normpath p ∉ (scanPaths fs target_root paths).1 ∧
    normpath p ∉ (scanPaths fs target_root paths).2

/-! ## Sample inputs used by concrete instances -/

/-- Metadata results of the documented example image: HAPPY_SHOT.JPG
taken 2020-08-19 15:47:45. -/
def imgSample : WmImage :=
  ⟨"2020", "08", "august", "AUGUST", "August", "19", "15", "47", "45",
   "HAPPY_SHOT"⟩

/-- Metadata results of an image with an undecodable EXIF date: the whole
date group is memoized as empty. -/
def imgNoDate : WmImage :=
  ⟨"", "", "", "", "", "", "", "", "", "HAPPY_SHOT"⟩

/-- Metadata results of an image whose file-name stem has 8200
characters, enough to push a [file_name] label over the ceiling. -/
def imgLongName : WmImage :=
  ⟨"", "", "", "", "", "", "", "", "",
   String.mk (List.replicate 8200 'a')⟩

/-- A filesystem with no entries. -/
def fsNone : ScanFS := ⟨fun _ => false, fun _ => false⟩

/-- Command-line arguments whose label template has 4097 characters. -/
def argsLongLabel : WmArgs :=
  ⟨"", false, String.mk (List.replicate 4097 'a'), "BottomRight",
   ["x.jpg"]⟩

/-! ## Helper lemmas -/

theorem process_file_count_mono (c : WmCounters) (e : FileEvent)
    (h : c.files_converted ≤ c.files_found) :
    (process_file_count c e).files_converted ≤
      (process_file_count c e).files_found := by
  unfold process_file_count convert_file_count
  repeat' split
  all_goals simp_all
  all_goals omega

theorem foldl_process_file_count_mono (es : List FileEvent) :
    ∀ c : WmCounters, c.files_converted ≤ c.files_found →
      (es.foldl process_file_count c).files_converted ≤
        (es.foldl process_file_count c).files_found := by
  induction es with
  | nil => intro c h; simpa using h
  | cons e rest ih =>
    intro c h
    simpa using ih (process_file_count c e) (process_file_count_mono c e h)

/-! ## Claim theorems -/

/-- Claim C9: WmImageMetrics.move returns True and updates the path
field exactly when the underlying file move succeeds; on failure it
returns False with the path unchanged; every memoized metadata field is
unchanged in both cases. -/
theorem wm_move_atomic :
    ∀ (m : WmImageMetricsState) (new_path : String) (move_ok : Bool),
      (wm_move m new_path move_ok).1 = move_ok ∧
      (wm_move m new_path move_ok).2.path =
        (if move_ok then new_path else m.path) ∧
      (wm_move m new_path move_ok).2.orientation = m.orientation ∧
      (wm_move m new_path move_ok).2.width = m.width ∧
      (wm_move m new_path move_ok).2.height = m.height ∧
      (wm_move m new_path move_ok).2.year = m.year ∧
      (wm_move m new_path move_ok).2.month = m.month ∧
      (wm_move m new_path move_ok).2.month_name = m.month_name ∧
      (wm_move m new_path move_ok).2.month_name_error =
        m.month_name_error ∧
      (wm_move m new_path move_ok).2.day = m.day ∧
      (wm_move m new_path move_ok).2.hour = m.hour ∧
      (wm_move m new_path move_ok).2.minute = m.minute ∧
      (wm_move m new_path move_ok).2.sec = m.sec ∧
      (wm_move m new_path move_ok).2.date_loaded = m.date_loaded ∧
      (wm_move m new_path move_ok).2.date_error = m.date_error ∧
      (wm_move m new_path move_ok).2.file_name = m.file_name ∧
      (wm_move m new_path move_ok).2.file_name_error =
        m.file_name_error := by
  intro m np ok
  cases ok <;> simp [wm_move]

/-- Claim C8: files_found counts exactly the candidates whose extension
is supported, files_converted grows by at most one per converted file and
only on a successful external conversion, so files_converted never
exceeds files_found at any step of a run that starts from zeroed
counters. -/
theorem files_converted_le_found :
    (∀ (es : List FileEvent) (c : WmCounters),
       c.files_converted ≤ c.files_found →
       (es.foldl process_file_count c).files_converted ≤
         (es.foldl process_file_count c).files_found) ∧
    (∀ (es : List FileEvent) (n : Nat),
       ((es.take n).foldl process_file_count ⟨0, 0⟩).files_converted ≤
         ((es.take n).foldl process_file_count ⟨0, 0⟩).files_found) := by
  refine ⟨fun es c h => foldl_process_file_count_mono es c h, ?_⟩
  intro es n
  exact foldl_process_file_count_mono (es.take n) ⟨0, 0⟩ (Nat.le_refl 0)

/-- Witness for C8 at a concrete two-file run: one supported file whose
conversion succeeds, and one skipped unsupported file. -/
theorem files_converted_le_found_witness :
    (([⟨"a.jpg", "a.jpg", "t/a.jpg", "", true, ⟨true, true⟩⟩,
       ⟨"b.txt", "b.txt", "t/b.txt", "", true, ⟨true, true⟩⟩] :
        List FileEvent).foldl process_file_count
        ⟨0, 0⟩).files_converted ≤
      (([⟨"a.jpg", "a.jpg", "t/a.jpg", "", true, ⟨true, true⟩⟩,
         ⟨"b.txt", "b.txt", "t/b.txt", "", true, ⟨true, true⟩⟩] :
          List FileEvent).foldl process_file_count ⟨0, 0⟩).files_found :=
  files_converted_le_found.1 _ ⟨0, 0⟩ (Nat.le_refl 0)

/-- Counterexample for C3 as stated: the code truncates the scaled font
size (Python int()) instead of rounding it.  At width 1900, height 1000
the code yields font size 39 where the claimed round formula yields
40. -/
theorem calc_font_size_round_cx :
    calc_font_size 1900 1000 = ⟨39, 39, 2⟩ ∧
    calc_font_size_spec 1900 1000 = ⟨40, 40, 2⟩ ∧
    calc_font_size 1900 1000 ≠ calc_font_size_spec 1900 1000 := by
  decide

/-- Claim C3 as amended: with exactFontSize computed by floor
(truncation) instead of round, the fitter is as described: at
effectiveMaxSide = 1920 the result is exactly (40, 40, stroke 2), and
otherwise exactFontSize = 40 * effectiveMaxSide / 1920 rounded toward
zero, fontSize = max(exactFontSize, 16), and strokeWidth = 1 iff
fontSize < 26. -/
theorem calc_font_size_floor :
    ∀ (width height : Nat), 0 < width → 0 < height →
      (effective_max_side width height = LABEL_FONT_SIZE_PHOTO_SIDE →
         calc_font_size width height =
           ⟨LABEL_FONT_SIZE, LABEL_FONT_SIZE, 2⟩) ∧
      (effective_max_side width height ≠ LABEL_FONT_SIZE_PHOTO_SIDE →
         (calc_font_size width height).exact_font_size =
           LABEL_FONT_SIZE * effective_max_side width height /
             LABEL_FONT_SIZE_PHOTO_SIDE ∧
         (calc_font_size width height).font_size =
           max ((calc_font_size width height).exact_font_size) 16 ∧
         (calc_font_size width height).stroke_width =
           (if (calc_font_size width height).font_size < 26 then 1
            else 2)) := by
  intro w h hw hh
  constructor
  · intro he
    simp [calc_font_size, he]
  · intro hne
    simp only [calc_font_size, if_neg hne]
    refine ⟨trivial, ?_, trivial⟩
    by_cases hf :
        LABEL_FONT_SIZE * effective_max_side w h /
          LABEL_FONT_SIZE_PHOTO_SIDE < 16
    · simp only [if_pos hf]
      omega
    · simp only [if_neg hf]
      omega

/-- Witness for C3 (amended) at width 1900, height 1000: the exact font
size is the floor 39 and the font size is its clamp against 16. -/
theorem calc_font_size_floor_witness :
    (calc_font_size 1900 1000).exact_font_size =
      LABEL_FONT_SIZE * effective_max_side 1900 1000 /
        LABEL_FONT_SIZE_PHOTO_SIDE ∧
    (calc_font_size 1900 1000).font_size =
      max ((calc_font_size 1900 1000).exact_font_size) 16 :=
  ⟨((calc_font_size_floor 1900 1000 (by decide) (by decide)).2
      (by decide)).1,
   ((calc_font_size_floor 1900 1000 (by decide) (by decide)).2
      (by decide)).2.1⟩

theorem effective_max_side_le (w h : Nat) :
    effective_max_side w h ≤ 1920 := by
  unfold effective_max_side PHOTO_MAX_SIDE
  exact min_le_right _ _

theorem calc_font_size_le (w h : Nat) :
    (calc_font_size w h).font_size ≤ 40 := by
  unfold calc_font_size
  by_cases he : effective_max_side w h = LABEL_FONT_SIZE_PHOTO_SIDE
  · simp [he, LABEL_FONT_SIZE]
  · have hs := effective_max_side_le w h
    have hf : LABEL_FONT_SIZE * effective_max_side w h /
        LABEL_FONT_SIZE_PHOTO_SIDE ≤ 40 := by
      have h1 : LABEL_FONT_SIZE * effective_max_side w h /
          LABEL_FONT_SIZE_PHOTO_SIDE ≤
          LABEL_FONT_SIZE * 1920 / LABEL_FONT_SIZE_PHOTO_SIDE :=
        Nat.div_le_div_right (by unfold LABEL_FONT_SIZE; omega)
      simpa [LABEL_FONT_SIZE, LABEL_FONT_SIZE_PHOTO_SIDE] using h1
    simp only [if_neg he]
    split <;> omega

/-- Claim C4: the computed font size is non-decreasing in
effectiveMaxSide, saturates at the base font size 40, and is never less
than 16. -/
theorem font_size_monotone :
    (∀ w1 h1 w2 h2 : Nat,
       effective_max_side w1 h1 ≤ effective_max_side w2 h2 →
       (calc_font_size w1 h1).font_size ≤
         (calc_font_size w2 h2).font_size) ∧
    (∀ w h : Nat,
       (calc_font_size w h).font_size ≤ LABEL_FONT_SIZE ∧
       16 ≤ (calc_font_size w h).font_size) := by
  constructor
  · intro w1 h1 w2 h2 hs
    by_cases he2 : effective_max_side w2 h2 = LABEL_FONT_SIZE_PHOTO_SIDE
    · have h40 := calc_font_size_le w1 h1
      have : (calc_font_size w2 h2).font_size = 40 := by
        simp [calc_font_size, he2, LABEL_FONT_SIZE]
      omega
    · have he1 : effective_max_side w1 h1 ≠ LABEL_FONT_SIZE_PHOTO_SIDE := by
        intro h
        have := effective_max_side_le w2 h2
        unfold LABEL_FONT_SIZE_PHOTO_SIDE at h he2
        omega
      have hff : LABEL_FONT_SIZE * effective_max_side w1 h1 /
          LABEL_FONT_SIZE_PHOTO_SIDE ≤
          LABEL_FONT_SIZE * effective_max_side w2 h2 /
          LABEL_FONT_SIZE_PHOTO_SIDE :=
        Nat.div_le_div_right (Nat.mul_le_mul_left _ hs)
      simp only [calc_font_size, if_neg he1, if_neg he2]
      split <;> split <;> omega
  · intro w h
    refine ⟨by simpa [LABEL_FONT_SIZE] using calc_font_size_le w h, ?_⟩
    unfold calc_font_size
    by_cases he : effective_max_side w h = LABEL_FONT_SIZE_PHOTO_SIDE
    · simp [he, LABEL_FONT_SIZE]
    · simp only [if_neg he]
      split <;> omega

/-- Witness for C4: a 100 x 80 image never gets a larger font than a
1900 x 1000 one, and the 100 x 80 font size respects both bounds. -/
theorem font_size_monotone_witness :
    (calc_font_size 100 80).font_size ≤
      (calc_font_size 1900 1000).font_size ∧
    (calc_font_size 100 80).font_size ≤ LABEL_FONT_SIZE ∧
    16 ≤ (calc_font_size 100 80).font_size :=
  ⟨font_size_monotone.1 100 80 1900 1000 (by decide),
   font_size_monotone.2 100 80⟩

theorem backupLoop_first_free (fs : String → Bool) (rname ext : String) :
    ∀ (fuel : Nat), ∀ (i : Nat),
      ((List.range' i fuel).map
          (fun j => rname ++ "_" ++ pad3 j ++ ext)).any
          (fun c => !(fs c)) = true →
      backupLoop fs rname ext i fuel =
        (((List.range' i fuel).map
            (fun j => rname ++ "_" ++ pad3 j ++ ext)).find?
            (fun c => !(fs c))).getD "" ∧
      fs (backupLoop fs rname ext i fuel) = false := by
  intro fuel
  induction fuel with
  | zero =>
    intro i h
    simp at h
  | succ f ih =>
    intro i h
    rw [List.range'_succ, List.map_cons] at h ⊢
    cases hfs : fs (rname ++ "_" ++ pad3 i ++ ext) with
    | false =>
      cases f with
      | zero =>
        refine ⟨?_, ?_⟩
        · simp [backupLoop, List.find?_cons, hfs]
        · simp [backupLoop, hfs]
      | succ f2 =>
        refine ⟨?_, ?_⟩
        · simp [backupLoop, List.find?_cons, hfs]
        · simp [backupLoop, hfs]
    | true =>
      simp only [List.any_cons, hfs, Bool.not_true, Bool.false_or] at h
      cases f with
      | zero => simp at h
      | succ f2 =>
        have hrec := ih (i + 1) h
        refine ⟨?_, ?_⟩
        · simpa [backupLoop, hfs, List.find?_cons] using hrec.1
        · simpa [backupLoop, hfs] using hrec.2

set_option maxRecDepth 100000 in
/-- Counterexample for C5 as stated: on a filesystem state where the
initial candidate and all 998 suffixed candidates exist (here every path
exists), get_backup_path returns photo_backup_998.jpg, a path that does
exist at call time, and no error is signaled. -/
theorem get_backup_path_exhaustion_cx :
    get_backup_path (fun _ => true) "photo.jpg" "" =
      "photo_backup_998.jpg" ∧
    (fun _ => true) "photo_backup_998.jpg" = true := by
  constructor
  · decide
  · rfl

/-- Claim C5 as amended: whenever at least one of the 999 inspected
candidates (the initial candidate, then suffixes _001 through _998) does
not exist, get_backup_path returns the first candidate that does not
exist, so its result does not exist at call time; only when all 999
candidates exist does it return the last (existing) name with no error
signal. -/
theorem get_backup_path_first_free :
    ∀ (fs : String → Bool) (path backup_dir : String),
      (backupCandidates path backup_dir).any (fun c => !(fs c)) = true →
      get_backup_path fs path backup_dir =
        ((backupCandidates path backup_dir).find?
            (fun c => !(fs c))).getD "" ∧
      fs (get_backup_path fs path backup_dir) = false := by
  intro fs path bdir h
  unfold backupCandidates at h ⊢
  cases hfs : fs (backupCand0 path bdir) with
  | false =>
    refine ⟨?_, ?_⟩
    · simp [get_backup_path, List.find?_cons, hfs]
    · simp [get_backup_path, hfs]
  | true =>
    simp only [List.any_cons, hfs, Bool.not_true, Bool.false_or] at h
    have hrec := backupLoop_first_free fs (backupStemExt path bdir).1
      (backupStemExt path bdir).2 998 1 h
    refine ⟨?_, ?_⟩
    · simpa [get_backup_path, hfs, List.find?_cons] using hrec.1
    · simpa [get_backup_path, hfs] using hrec.2

/-- Witness for C5 (amended): on an empty filesystem the initial
candidate photo_backup.jpg is free, is returned, and does not exist. -/
theorem get_backup_path_first_free_witness :
    get_backup_path (fun _ => false) "photo.jpg" "" =
      ((backupCandidates "photo.jpg" "").find?
          (fun c => !((fun _ => false) c))).getD "" ∧
    (fun _ => false) (get_backup_path (fun _ => false) "photo.jpg" "")
      = false :=
  get_backup_path_first_free (fun _ => false) "photo.jpg" "" (by decide)

theorem scanPaths_inv (fs : ScanFS) (target_root : String)
    (htr : target_root ≠ "") :
    ∀ (paths : List String) (acc : List String × List String),
      (∀ q, q ∈ acc.1 ∨ q ∈ acc.2 →
        ¬((psplit q).1 = target_root ∨
          ((psplit q).1 = "" ∧ target_root = "."))) →
      ∀ q, (q ∈ (paths.foldl (scanPathStep fs target_root) acc).1 ∨
            q ∈ (paths.foldl (scanPathStep fs target_root) acc).2) →
        ¬((psplit q).1 = target_root ∨
          ((psplit q).1 = "" ∧ target_root = ".")) := by
  intro paths
  induction paths with
  | nil =>
    intro acc hacc q hq
    exact hacc q hq
  | cons p rest ih =>
    intro acc hacc q hq
    rw [List.foldl_cons] at hq
    refine ih (scanPathStep fs target_root acc p) ?_ q hq
    intro r hr
    simp only [scanPathStep] at hr
    split at hr
    · exact hacc r hr
    · split at hr
      · exact hacc r hr
      · rename_i hnotdest
        split at hr
        · rcases hr with hr | hr
          · exact hacc r (Or.inl hr)
          · rcases List.mem_append.mp hr with hr | hr
            · exact hacc r (Or.inr hr)
            · have hreq : r = normpath p := List.mem_singleton.mp hr
              intro hcontra
              exact hnotdest ⟨htr, hreq ▸ hcontra⟩
        · rcases hr with hr | hr
          · rcases List.mem_append.mp hr with hr | hr
            · exact hacc r (Or.inl hr)
            · have hreq : r = normpath p := List.mem_singleton.mp hr
              intro hcontra
              exact hnotdest ⟨htr, hreq ▸ hcontra⟩
          · exact hacc r (Or.inr hr)

/-- Counterexample for C6 as stated: the scanning phase compares the
parent directory of each source with the destination root, not the
source itself; with destination root a/dest and the existing source
directory a/dest, the path equal to the destination root is accepted
into the scanned directory list. -/
theorem scan_root_not_rejected_cx : ¬ scanRejectsRootProp := by
  intro h
  exact (h ⟨fun p => p == "a/dest", fun p => p == "a/dest"⟩ "a/dest"
      ["a/dest"] "a/dest" (by decide) (by simp) (by decide)).2 (by decide)

/-- Claim C6 as amended: the scanning phase rejects exactly the sources
whose parent directory (of the normalized path) equals the destination
root, or whose parent is empty while the destination root is ".": every
path admitted to either scanned list fails that parent-directory
condition.  A source path merely equal to the destination root is not
rejected by this check. -/
theorem scan_rejects_dest_parent :
    ∀ (fs : ScanFS) (target_root : String) (paths : List String)
      (q : String),
      target_root ≠ "" →
      (q ∈ (scanPaths fs target_root paths).1 ∨
       q ∈ (scanPaths fs target_root paths).2) →
      ¬((psplit q).1 = target_root ∨
        ((psplit q).1 = "" ∧ target_root = ".")) := by
  intro fs tr paths q htr hq
  exact scanPaths_inv fs tr htr paths ([], []) (by simp) q hq

/-- Witness for C6 (amended): with destination root dest, the accepted
file img.jpg (parent "") indeed fails the parent-directory rejection
condition. -/
theorem scan_rejects_dest_parent_witness :
    ¬((psplit "img.jpg").1 = "dest" ∨
      ((psplit "img.jpg").1 = "" ∧ "dest" = ".")) :=
  scan_rejects_dest_parent ⟨fun p => p == "img.jpg", fun _ => false⟩
    "dest" ["img.jpg"] "img.jpg" (by decide) (Or.inl (by decide))

theorem foldl_composeStep_static (img img0 : WmImage) :
    ∀ (spans : List WmLabelSpan), templateStatic spans = true →
      ∀ st, spans.foldl (composeStep img) st =
        spans.foldl (composeStep img0) st := by
  intro spans
  induction spans with
  | nil => intro _ st; rfl
  | cons sp rest ih =>
    intro hs st
    have hs2 : (match sp.kind with
        | WmSpanKind.text _ => true
        | WmSpanKind.tag _ => false) = true ∧
        templateStatic rest = true := by
      simpa [templateStatic, List.all_cons] using hs
    have hv : spanValue img sp = spanValue img0 sp := by
      cases hk : sp.kind with
      | text s => simp [spanValue, hk]
      | tag n => rw [hk] at hs2; simp at hs2
    have hstep : composeStep img st sp = composeStep img0 st sp := by
      unfold composeStep
      rw [hv]
    simp only [List.foldl_cons, hstep]
    exact ih hs2.2 (composeStep img0 st sp)

theorem wmCompose_static {spans : List WmLabelSpan}
    (hs : templateStatic spans = true) (img img0 : WmImage) :
    wmCompose spans img = wmCompose spans img0 := by
  unfold wmCompose
  rw [foldl_composeStep_static img img0 spans hs]

theorem wmComposePath_spec (spans : List WmLabelSpan) (img : WmImage) :
    (wmCompose spans img = "" → wmComposePath spans img = none) ∧
    (LABEL_MAX_SIZE * 2 < (wmCompose spans img).length →
      wmComposePath spans img = none) ∧
    (∀ s, wmComposePath spans img = some s →
      wmCompose spans img ≠ "" ∧
      (wmCompose spans img).length ≤ LABEL_MAX_SIZE * 2) := by
  refine ⟨?_, ?_, ?_⟩
  · intro h
    simp [wmComposePath, h]
  · intro h
    by_cases h1 : wmCompose spans img = ""
    · simp [wmComposePath, h1]
    · simp [wmComposePath, h1, h]
  · intro s hs
    by_cases h1 : wmCompose spans img = ""
    · simp [wmComposePath, h1] at hs
    · by_cases h2 : LABEL_MAX_SIZE * 2 < (wmCompose spans img).length
      · simp [wmComposePath, h1, h2] at hs
      · exact ⟨h1, by omega⟩

/-- Claim C10: WmLabel.text yields None whenever the template string is
empty or the composed text for the image is empty, and a non-None result
only ever arises from a nonempty composed text within the size ceiling
(across every reachable cache state of the label object). -/
theorem wm_label_text_none_iff_empty :
    ∀ (templateStr : String) (cached : Option String) (img : WmImage),
      ReachableCache templateStr cached →
      ((templateStr = "" ∨
          wmCompose (wmGetSpans templateStr) img = "") →
        wmLabelTextFn templateStr cached img = none) ∧
      (∀ s, wmLabelTextFn templateStr cached img = some s →
        wmCompose (wmGetSpans templateStr) img ≠ "" ∧
        (wmCompose (wmGetSpans templateStr) img).length ≤
          LABEL_MAX_SIZE * 2) := by
  intro ts c img hreach
  by_cases hts : ts = ""
  · refine ⟨fun _ => by simp [wmLabelTextFn, hts], fun s hs => ?_⟩
    rw [wmLabelTextFn, if_pos hts] at hs
    exact absurd hs (by simp)
  · cases c with
    | none =>
      have hfn : wmLabelTextFn ts none img =
          wmComposePath (wmGetSpans ts) img := by
        simp [wmLabelTextFn, hts]
      refine ⟨fun hor => ?_, fun s hs => ?_⟩
      · rcases hor with h | h
        · exact absurd h hts
        · rw [hfn]
          exact (wmComposePath_spec _ _).1 h
      · rw [hfn] at hs
        exact (wmComposePath_spec _ _).2.2 s hs
    | some t =>
      rcases hreach with hnone | ⟨img0, t0, hct, hcomp, hne, hlen⟩
      · exact absurd hnone (by simp)
      · have ht : t = t0 := Option.some.inj hct
        subst ht
        by_cases hstat : templateStatic (wmGetSpans ts) = true
        · have hci : wmCompose (wmGetSpans ts) img = t := by
            rw [wmCompose_static hstat img img0]
            exact hcomp.symm
          have hfn : wmLabelTextFn ts (some t) img = some t := by
            simp [wmLabelTextFn, hts, hstat]
          refine ⟨fun hor => ?_, fun s hs => ?_⟩
          · rcases hor with h | h
            · exact absurd h hts
            · rw [hci] at h
              exact absurd h hne
          · rw [hci]
            exact ⟨hne, hlen⟩
        · have hfn : wmLabelTextFn ts (some t) img =
              wmComposePath (wmGetSpans ts) img := by
            simp [wmLabelTextFn, hts, hstat]
          refine ⟨fun hor => ?_, fun s hs => ?_⟩
          · rcases hor with h | h
            · exact absurd h hts
            · rw [hfn]
              exact (wmComposePath_spec _ _).1 h
          · rw [hfn] at hs
            exact (wmComposePath_spec _ _).2.2 s hs

/-- Witness for C10: a date label for an image without EXIF date
composes to the empty string and yields no label. -/
theorem wm_label_text_none_iff_empty_witness :
    wmLabelTextFn "[YYYY]" none imgNoDate = none :=
  (wm_label_text_none_iff_empty "[YYYY]" none imgNoDate
      (Or.inl rfl)).1 (Or.inr (by decide))

/-- Claim C7: a composed label text over the ceiling (LABEL_MAX_SIZE * 2)
is dropped, WmLabel.text returning None so the file converts without a
label; and a raw CLI label template over LABEL_MAX_SIZE makes main stop
before any conversion starts. -/
theorem label_too_long_dropped :
    (∀ (templateStr : String) (cached : Option String) (img : WmImage),
       ReachableCache templateStr cached →
       LABEL_MAX_SIZE * 2 <
         (wmCompose (wmGetSpans templateStr) img).length →
       wmLabelTextFn templateStr cached img = none) ∧
    (∀ (fs : ScanFS) (args : WmArgs),
       args.path ≠ [] → set_target_ok fs args.target = true →
       LABEL_MAX_SIZE < args.label.length →
       mainFlow fs args = MainOutcome.labelTooLong) := by
  constructor
  · intro ts c img hreach hlong
    by_cases hts : ts = ""
    · simp [wmLabelTextFn, hts]
    · cases c with
      | none =>
        have hfn : wmLabelTextFn ts none img =
            wmComposePath (wmGetSpans ts) img := by
          simp [wmLabelTextFn, hts]
        rw [hfn]
        exact (wmComposePath_spec _ _).2.1 hlong
      | some t =>
        rcases hreach with hnone | ⟨img0, t0, hct, hcomp, hne, hlen⟩
        · exact absurd hnone (by simp)
        · have ht : t = t0 := Option.some.inj hct
          subst ht
          by_cases hstat : templateStatic (wmGetSpans ts) = true
          · have hci : wmCompose (wmGetSpans ts) img = t := by
              rw [wmCompose_static hstat img img0]
              exact hcomp.symm
            rw [hci] at hlong
            omega
          · have hfn : wmLabelTextFn ts (some t) img =
                wmComposePath (wmGetSpans ts) img := by
              simp [wmLabelTextFn, hts, hstat]
            rw [hfn]
            exact (wmComposePath_spec _ _).2.1 hlong
  · intro fs args hpath hok hlen
    unfold mainFlow
    rw [if_neg hpath, hok]
    simp [hlen]

/-- Witness for C7: an 8200-character composed label is dropped, and a
4097-character CLI template aborts the run before conversion. -/
theorem label_too_long_dropped_witness :
    wmLabelTextFn "[file_name]" none imgLongName = none ∧
    mainFlow fsNone argsLongLabel = MainOutcome.labelTooLong := by
  constructor
  · apply label_too_long_dropped.1 "[file_name]" none imgLongName
      (Or.inl rfl)
    have hL : wmCompose (wmGetSpans "[file_name]") imgLongName =
        String.mk (List.replicate 8200 'a') := rfl
    have h2 : (String.mk (List.replicate 8200 'a')).length = 8200 := by
      show (List.replicate 8200 'a').length = 8200
      exact List.length_replicate 8200 'a'
    rw [hL, h2]
    decide
  · apply label_too_long_dropped.2 fsNone argsLongLabel (by decide)
      (by decide)
    show LABEL_MAX_SIZE < (String.mk (List.replicate 4097 'a')).length
    have h2 : (String.mk (List.replicate 4097 'a')).length = 4097 := by
      show (List.replicate 4097 'a').length = 4097
      exact List.length_replicate 4097 'a'
    rw [h2]
    decide

theorem str_append_empty (s : String) : s ++ "" = s := by
  cases s with
  | mk d =>
    show String.mk (d ++ []) = String.mk d
    rw [List.append_nil]

theorem str_empty_append (s : String) : "" ++ s = s := rfl

theorem str_append_assoc (a b c : String) : a ++ b ++ c = a ++ (b ++ c) := by
  cases a with
  | mk x =>
    cases b with
    | mk y =>
      cases c with
      | mk z =>
        show String.mk (x ++ y ++ z) = String.mk (x ++ (y ++ z))
        rw [List.append_assoc]

theorem joinValues_append (img : WmImage) (l1 l2 : List WmLabelSpan) :
    joinValues img (l1 ++ l2) = joinValues img l1 ++ joinValues img l2 := by
  induction l1 with
  | nil => simp [joinValues, str_empty_append]
  | cons sp rest ih =>
    show spanValue img sp ++ joinValues img (rest ++ l2) =
      spanValue img sp ++ joinValues img rest ++ joinValues img l2
    rw [ih]
    exact (str_append_assoc _ _ _).symm

theorem foldl_composeStep_empty (img : WmImage) :
    ∀ (l : List WmLabelSpan), noGroupFlags l →
      ∀ st : ComposeState, st.group = true → st.group_empty = true →
        l.foldl (composeStep img) st = st := by
  intro l
  induction l with
  | nil => intro _ st _ _; rfl
  | cons sp rest ih =>
    intro hl st hg he
    have hf := hl sp (List.mem_cons_self sp rest)
    have hstep : composeStep img st sp = st := by
      unfold composeStep
      rw [hf.1, hf.2]
      simp [hg, he]
    rw [List.foldl_cons, hstep]
    exact ih (fun x hx => hl x (List.mem_cons_of_mem sp hx)) st hg he

theorem foldl_composeStep_group (img : WmImage) :
    ∀ (l : List WmLabelSpan), noGroupFlags l →
      ∀ st : ComposeState, st.group = true → st.group_empty = false →
        l.foldl (composeStep img) st =
          (if l.any (fun x => spanValue img x == "") then
            { st with group_empty := true, group_text := "" }
          else
            { st with group_text := st.group_text ++ joinValues img l }) := by
  intro l
  induction l with
  | nil =>
    intro _ st hg he
    simp [joinValues, str_append_empty]
  | cons sp rest ih =>
    intro hl st hg he
    have hf := hl sp (List.mem_cons_self sp rest)
    have hrest : noGroupFlags rest :=
      fun x hx => hl x (List.mem_cons_of_mem sp hx)
    rw [List.foldl_cons]
    by_cases hv : spanValue img sp = ""
    · have hstep : composeStep img st sp =
          { st with group_empty := true, group_text := "" } := by
        unfold composeStep
        rw [hf.1, hf.2]
        simp [hg, he, hv]
      rw [hstep, foldl_composeStep_empty img rest hrest
        { st with group_empty := true, group_text := "" } hg rfl]
      simp [List.any_cons, hv]
    · have hstep : composeStep img st sp =
          { st with group_text := st.group_text ++ spanValue img sp } := by
        unfold composeStep
        rw [hf.1, hf.2]
        simp [hg, he, hv]
      rw [hstep, ih hrest
        { st with group_text := st.group_text ++ spanValue img sp } hg he]
      by_cases ha : rest.any (fun x => spanValue img x == "") = true
      · simp [ha, List.any_cons, hv]
      · simp [ha, List.any_cons, hv, joinValues, str_append_assoc]

/-- Claim C1: composing is all-or-nothing per bracket group: a group run
entered from a state outside any group contributes the empty string to
the output whenever any of its spans resolves empty, and the
concatenation of all resolved values otherwise; a span outside any group
appends its resolved value unconditionally. -/
theorem wm_compose_all_or_nothing :
    (∀ (img : WmImage) (g : List WmLabelSpan), IsGroupRun g →
       ∀ st : ComposeState, st.group = false → st.group_text = "" →
         ((g.foldl (composeStep img) st).label_text =
            st.label_text ++
              (if g.any (fun x => spanValue img x == "") then ""
               else joinValues img g)) ∧
         (g.foldl (composeStep img) st).group = false ∧
         (g.foldl (composeStep img) st).group_text = "") ∧
    (∀ (img : WmImage) (sp : WmLabelSpan),
       sp.group_start = false → sp.group_end = false →
       ∀ st : ComposeState, st.group = false →
         (composeStep img st sp).label_text =
           st.label_text ++ spanValue img sp ∧
         (composeStep img st sp).group = false ∧
         (composeStep img st sp).group_text = st.group_text) := by
  constructor
  · intro img g hg st hstg hsttx
    cases hg with
    | single k =>
      by_cases hv : spanValue img ⟨k, true, true⟩ = ""
      · simp [composeStep, hstg, hv, List.any_cons, str_append_empty]
      · simp [composeStep, hstg, hsttx, hv, List.any_cons, joinValues,
          str_empty_append, str_append_empty]
    | multi k k2 mid hmid =>
      simp only [List.foldl_cons, List.foldl_append]
      by_cases hva : spanValue img ⟨k, true, false⟩ = ""
      · have hstepA : composeStep img st ⟨k, true, false⟩ =
            { st with group := true, group_empty := true,
                      group_text := "" } := by
          unfold composeStep
          simp [hva]
        rw [hstepA, foldl_composeStep_empty img mid hmid
          { st with group := true, group_empty := true,
                    group_text := "" } rfl rfl]
        simp [composeStep, List.any_cons, hva, str_append_empty]
      · have hstepA : composeStep img st ⟨k, true, false⟩ =
            { st with group := true, group_empty := false,
                      group_text := st.group_text ++
                        spanValue img ⟨k, true, false⟩ } := by
          unfold composeStep
          simp [hva]
        rw [hstepA, foldl_composeStep_group img mid hmid
          { st with group := true, group_empty := false,
                    group_text := st.group_text ++
                      spanValue img ⟨k, true, false⟩ } rfl rfl]
        by_cases ham : mid.any (fun x => spanValue img x == "") = true
        · rw [if_pos ham]
          simp [composeStep, List.any_cons, List.any_append, ham,
            str_append_empty]
        · rw [if_neg ham]
          by_cases hvb : spanValue img ⟨k2, false, true⟩ = ""
          · simp [composeStep, List.any_cons, List.any_append, ham, hvb,
              str_append_empty]
          · simp [composeStep, List.any_cons, List.any_append, ham, hva,
              hvb, hsttx, joinValues, joinValues_append,
              str_empty_append, str_append_empty, str_append_assoc]
  · intro img sp h1 h2 st hst
    unfold composeStep
    rw [h1, h2]
    simp [hst]

/-- Witness for C1: a one-tag group over an image whose EXIF date is
unavailable contributes the empty string. -/
theorem wm_compose_all_or_nothing_witness :
    (([⟨WmSpanKind.tag "YYYY", true, true⟩] : List WmLabelSpan).foldl
        (composeStep imgNoDate) ⟨"", false, false, ""⟩).label_text =
      "" ++
        (if ([⟨WmSpanKind.tag "YYYY", true, true⟩] :
            List WmLabelSpan).any
            (fun x => spanValue imgNoDate x == "") then ""
         else joinValues imgNoDate
           [⟨WmSpanKind.tag "YYYY", true, true⟩]) :=
  (wm_compose_all_or_nothing.1 imgNoDate
      [⟨WmSpanKind.tag "YYYY", true, true⟩]
      (IsGroupRun.single (WmSpanKind.tag "YYYY"))
      ⟨"", false, false, ""⟩ rfl rfl).1

theorem findTag_lbracket (cs : List Char) :
    findTag ('[' :: cs) = none := rfl

theorem findTag_rbracket (cs : List Char) :
    findTag (']' :: cs) = none := rfl

/-- Counterexample for C2 as stated: in the template [a[b]] the adjacent
pair of closing brackets sits at depth 2, and processing it takes the
tracked bracket depth from 2 to 0, ending the bracket group: the template
parses to a single bracket group with text a[b], instead of the escaped
reading in which the pair decodes to a literal bracket and the depth
stays unchanged. -/
theorem escape_pair_depth_cx :
    (¬ escapePairDepthInvariant) ∧
    wmGetSpans "[a[b]]" = [⟨WmSpanKind.text "a[b]", true, true⟩] := by
  constructor
  · intro h
    have h2 := h "[a[b]]" 4 ']' (Or.inr rfl) (by decide) (by decide)
    revert h2
    decide
  · decide

/-- Claim C2 as amended: the double-bracket escapes are recognized by the
outer scan only at bracket depth 0, where they produce a single literal
bracket and leave the tracked depth at 0; inside a bracket region each
bracket of the pair changes the tracked depth by one (so an adjacent
pair at depth 2 can end the group); the content of a completed bracket
region is decoded in the second pass, where a leading double bracket
(no tag can match there) again produces a single literal bracket and
consumes both characters. -/
theorem escape_decode_amended :
    (∀ (c : Char) (cs : List Char) (st : ScanSt),
       st.brackets = 0 → (c = '[' ∨ c = ']') →
       getSpansAux (c :: c :: cs) st =
         getSpansAux cs { st with text_span := st.text_span.push c } ∧
       scanDepths (c :: c :: cs) 0 = 0 :: 0 :: scanDepths cs 0) ∧
    (∀ (fuel : Nat) (c : Char) (cs : List Char) (ts : String),
       (c = '[' ∨ c = ']') →
       getBracketSpansAux (fuel + 1) (c :: c :: cs) ts =
         getBracketSpansAux fuel cs (ts.push c)) ∧
    (∀ (b : Nat) (c2 : Char) (cs : List Char), 1 ≤ b →
       scanDepths ('[' :: c2 :: cs) b =
         b :: scanDepths (c2 :: cs) (b + 1) ∧
       scanDepths (']' :: c2 :: cs) b =
         b :: scanDepths (c2 :: cs) (b - 1)) := by
  refine ⟨?_, ?_, ?_⟩
  · intro c cs st hb hc
    rcases hc with rfl | rfl <;>
      exact ⟨by simp [getSpansAux, hb], by simp [scanDepths]⟩
  · intro fuel c cs ts hc
    rcases hc with rfl | rfl
    · simp [getBracketSpansAux, findTag_lbracket]
    · simp [getBracketSpansAux, findTag_rbracket]
  · intro b c2 cs hb
    have hb0 : ¬ b = 0 := by omega
    constructor
    · simp [scanDepths, hb0, nextDepth]
    · have hlt : 0 < b := hb
      simp [scanDepths, hb0, nextDepth, hlt]

/-- Witness for C2 (amended): one concrete instance of each clause. -/
theorem escape_decode_amended_witness :
    (getSpansAux ('[' :: '[' :: []) ⟨0, "", "", []⟩ =
       getSpansAux [] ⟨0, "".push '[', "", []⟩) ∧
    (getBracketSpansAux 1 (']' :: ']' :: []) "" =
       getBracketSpansAux 0 [] ("".push ']')) ∧
    (scanDepths ('[' :: 'x' :: []) 2 = 2 :: scanDepths ('x' :: []) 3) :=
  ⟨(escape_decode_amended.1 '[' [] ⟨0, "", "", []⟩ rfl (Or.inl rfl)).1,
   escape_decode_amended.2.1 0 ']' [] "" (Or.inr rfl),
   (escape_decode_amended.2.2 2 'x' [] (by decide)).1⟩

end Wikimaping
